import Mathlib

/-!
# Verification of the paperlesscad DfM checker

A shallow embedding of `paperlesscad/solution.py` (function `dfm_check`) and
`paperlesscad/utils.py` (`is_close`, `is_concave`, the `HashShape`-keyed
adjacency maps).

Modelling conventions:
* Floating-point scalars are modelled as exact rationals; Python float
  literals become the corresponding rationals (`3.175` as `127/40`, `0.001`
  as `1/1000`, tolerances as powers of ten, `math.pi` as the exact value of
  the IEEE-754 double nearest pi).
* Faces and edges are identified by their stable position in the shape's
  `Faces` / `Edges` sequences (the structural-identity arena indices that
  `HashShape` realises in the source); Python `faces.index(f)` is that index.
* Kernel queries (`normalAt`, `valueAt`, `Surface.parameter`, `distToShape`,
  `Vector.getAngle`, `Vector.normalize`) are external-collaborator geometry
  evaluations; they are carried as function-valued fields of the embedded
  shape, i.e. as oracle data the checker consumes.  No verified property
  depends on their internal definition, only on how `dfm_check` branches on
  the returned values, exactly as in the source.
* Python iterates several hash sets in unspecified order; the embedding
  iterates them in increasing index order.  All verified properties are
  order-insensitive (membership, counts, at-most-once flags).
-/

/-- Three-component vector of rational scalars (FreeCAD `Vector`). -/
structure Vec3 where
  x : ℚ
  y : ℚ
  z : ℚ
deriving DecidableEq

def Vec3.add (a b : Vec3) : Vec3 := ⟨a.x + b.x, a.y + b.y, a.z + b.z⟩

def Vec3.sub (a b : Vec3) : Vec3 := ⟨a.x - b.x, a.y - b.y, a.z - b.z⟩

def Vec3.neg (a : Vec3) : Vec3 := ⟨-a.x, -a.y, -a.z⟩

instance : Add Vec3 := ⟨Vec3.add⟩

instance : Sub Vec3 := ⟨Vec3.sub⟩

instance : Neg Vec3 := ⟨Vec3.neg⟩

/-- Dot product (FreeCAD `Vector.dot`). -/
def Vec3.dot (a b : Vec3) : ℚ := a.x * b.x + a.y * b.y + a.z * b.z

/-- Scalar multiple (FreeCAD `Vector.multiply`). -/
def Vec3.smul (a : Vec3) (k : ℚ) : Vec3 := ⟨a.x * k, a.y * k, a.z * k⟩

/-- Axis-aligned bounding box (FreeCAD `BoundBox`). -/
structure BBox where
  xMin : ℚ
  xMax : ℚ
  yMin : ℚ
  yMax : ℚ
  zMin : ℚ
  zMax : ℚ
deriving DecidableEq

/-- Source `BoundBox.ZLength`. -/
def BBox.zLength (b : BBox) : ℚ := b.zMax - b.zMin

/-- Source `BoundBox.enlarge(d)`: grow the box by `d` in every direction. -/
def BBox.enlarge (b : BBox) (d : ℚ) : BBox :=
  ⟨b.xMin - d, b.xMax + d, b.yMin - d, b.yMax + d, b.zMin - d, b.zMax + d⟩

/-- Source `BoundBox.intersect(other)`: the two closed boxes overlap. -/
def BBox.intersects (a b : BBox) : Bool :=
  decide (a.xMin ≤ b.xMax ∧ b.xMin ≤ a.xMax ∧ a.yMin ≤ b.yMax ∧ b.yMin ≤ a.yMax
    ∧ a.zMin ≤ b.zMax ∧ b.zMin ≤ a.zMax)

/-- Surface variant of a face (`Part.Plane` / `Part.Cylinder` / `Part.Cone` /
`Part.Sphere` / `Part.Toroid` / anything else). -/
inductive Surface
  | plane (axis : Vec3)
  | cylinder (axis center : Vec3) (radius : ℚ)
  | cone (axis center : Vec3)
  | sphere
  | torus
  | other
deriving DecidableEq

/-- Source `Surface.Axis` accessor (meaningful for plane/cylinder/cone). -/
def Surface.axisOf : Surface → Vec3
  | .plane a => a
  | .cylinder a _ _ => a
  | .cone a _ => a
  | _ => ⟨0, 0, 0⟩

/-- Source `Surface.Center` accessor (meaningful for cylinder/cone). -/
def Surface.centerOf : Surface → Vec3
  | .cylinder _ c _ => c
  | .cone _ c => c
  | _ => ⟨0, 0, 0⟩

/-- Source `Surface.Radius` accessor (meaningful for cylinder). -/
def Surface.radiusOf : Surface → ℚ
  | .cylinder _ _ r => r
  | _ => 0

/-- Curve variant of an edge (`Part.Line` or anything else). -/
inductive Curve
  | line (startPoint endPoint : Vec3)
  | other
deriving DecidableEq

/-- One face of the shape.  `edges` lists the arena indices of its incident
edges (`Face.Edges`); the remaining function fields are the geometry-kernel
evaluations this face supports. -/
structure Face where
  surface : Surface
  edges : List ℕ
  boundBox : BBox
  paramRange : ℚ × ℚ × ℚ × ℚ
  normalAt : ℚ → ℚ → Vec3
  valueAt : ℚ → ℚ → Vec3
  parameter : Vec3 → ℚ × ℚ

def defaultFace : Face where
  surface := .other
  edges := []
  boundBox := ⟨0, 0, 0, 0, 0, 0⟩
  paramRange := (0, 0, 0, 0)
  normalAt := fun _ _ => ⟨0, 0, 0⟩
  valueAt := fun _ _ => ⟨0, 0, 0⟩
  parameter := fun _ => (0, 0)

instance : Inhabited Face := ⟨defaultFace⟩

/-- The input solid as read from the STEP file, together with the
geometry-kernel query surface the checker consumes (`distToShape`, the
vector math `getAngle` and `normalize`).  Well-formed inputs list in
`faces[i].edges` only indices below `edges.length`. -/
structure Shape where
  boundBox : BBox
  faces : List Face
  edges : List Curve
  dist : ℕ → ℕ → ℚ × Vec3 × Vec3
  getAngle : Vec3 → Vec3 → ℚ
  normalize : Vec3 → Vec3

/-- Face lookup by arena index. -/
def Shape.face (s : Shape) (i : ℕ) : Face := s.faces.getD i defaultFace

/-- Edge-curve lookup by arena index (`edge.Curve`). -/
def Shape.edge (s : Shape) (e : ℕ) : Curve := s.edges.getD e .other

/-- Absolute value on the rationals, spelled with an `if` so the kernel
evaluates it on literals. -/
def ratAbs (q : ℚ) : ℚ := if q < 0 then -q else q

/-- Source `utils.is_close` with an explicit tolerance. -/
def isCloseTol (a b tol : ℚ) : Bool := decide (ratAbs (a - b) < tol)

/-- Source `utils.is_close` with the default tolerance `1e-13`. -/
def is_close (a b : ℚ) : Bool := isCloseTol a b (1 / 10 ^ 13)

/-- Source `utils.is_concave`: sample the corner of the parameter range; the face is
concave iff the vector from the axis center to the sampled point opposes the
outward normal there. -/
def is_concave (f : Face) : Bool :=
  let u := f.paramRange.1
  let v := f.paramRange.2.2.1
  let loc := f.valueAt u v
  let norm := f.normalAt u v
  decide ((loc - f.surface.centerOf).dot norm < 0)

/-- The exact rational value of the IEEE-754 double `math.pi`. -/
def ratPi : ℚ := 884279719003555 / 281474976710656

/-- Source `shallow_limit = 10 * pi/180`: boundary between a mild and a regular
tight corner. -/
def shallowLimit : ℚ := 10 * ratPi / 180

/-- Default kerf width: part thickness, to a minimum of 3.175 (0.125 in). -/
def kerfWidth (s : Shape) : ℚ := max (127 / 40) s.boundBox.zLength

/-- Issue kind tags (`issue` strings of the result dictionaries). -/
inductive IssueKind
  | nonUniform
  | radius
  | counterSink
  | counterBore
  | smallHole
  | smallCut
  | draft
  | chamfer
  | tightCorner
  | tightCornerMild
deriving DecidableEq

/-- One emitted defect record `{issue: ..., faces: ...}`. -/
structure Issue where
  issue : IssueKind
  faces : Option (List ℕ)
deriving DecidableEq

/-- Result dictionary `{issues: [...]}` of `dfm_check`. -/
structure CheckResult where
  issues : List Issue
deriving DecidableEq

/-- Axis-alignment test shared by horizontal planes and vertical
cylinders/cones: x and y components vanish, |z| is 1 (tolerance 1e-13). -/
def axisVertical (a : Vec3) : Bool :=
  is_close a.x 0 && is_close a.y 0 && is_close (ratAbs a.z) 1

/-- Surface-variant discriminators (`isinstance` tests of the source). -/
def Surface.isPlane : Surface → Bool
  | .plane _ => true
  | _ => false

def Surface.isCylinder : Surface → Bool
  | .cylinder _ _ _ => true
  | _ => false

def Surface.isCone : Surface → Bool
  | .cone _ _ => true
  | _ => false

def Surface.isBad : Surface → Bool
  | .sphere => true
  | .torus => true
  | _ => false

/-- Source `planes`: faces whose surface is a plane. -/
def planes (s : Shape) : Finset ℕ :=
  (Finset.range s.faces.length).filter fun i => (s.face i).surface.isPlane

/-- Source `horizontal_planes`: planes with a layering-axis-aligned axis. -/
def horizontalPlanes (s : Shape) : Finset ℕ :=
  (planes s).filter fun i => axisVertical (s.face i).surface.axisOf

/-- Source `angled_planes`: non-horizontal planes whose axis is not perpendicular
to the layering axis. -/
def angledPlanes (s : Shape) : Finset ℕ :=
  (planes s \ horizontalPlanes s).filter fun i =>
    !(is_close (s.face i).surface.axisOf.z 0)

/-- Source `cylinders`. -/
def cylinders (s : Shape) : Finset ℕ :=
  (Finset.range s.faces.length).filter fun i => (s.face i).surface.isCylinder

/-- Source `vertical_cylinders`. -/
def verticalCylinders (s : Shape) : Finset ℕ :=
  (cylinders s).filter fun i => axisVertical (s.face i).surface.axisOf

/-- Source `cones`. -/
def cones (s : Shape) : Finset ℕ :=
  (Finset.range s.faces.length).filter fun i => (s.face i).surface.isCone

/-- Source `vertical_cones`. -/
def verticalCones (s : Shape) : Finset ℕ :=
  (cones s).filter fun i => axisVertical (s.face i).surface.axisOf

/-- Source `bad_surfaces`: spheres and tori. -/
def badSurfaces (s : Shape) : Finset ℕ :=
  (Finset.range s.faces.length).filter fun i => (s.face i).surface.isBad

/-- Source `leftovers`: every face not otherwise classified. -/
def leftovers (s : Shape) : Finset ℕ :=
  (((Finset.range s.faces.length \ planes s) \ cylinders s) \ cones s) \ badSurfaces s

/-- Source `edge_to_faces[e]`: the faces incident to edge `e`. -/
def edgeToFaces (s : Shape) (e : ℕ) : Finset ℕ :=
  (Finset.range s.faces.length).filter fun i => e ∈ (s.face i).edges

/-- The aggregate `face_to_faces[f]` after the update loop, before the face
itself is removed: the union over `f`'s edges of the incident-face sets. -/
def faceToFacesPre (s : Shape) (f : ℕ) : Finset ℕ :=
  (s.face f).edges.toFinset.biUnion (edgeToFaces s)

/-- Source `face_to_faces[f]` after the self-removal pass. -/
def faceToFaces (s : Shape) (f : ℕ) : Finset ℕ :=
  (faceToFacesPre s f).erase f

/-- The self-removal pass runs `v.remove(k)`, which fails unless the key is
already present; the checked construction returns `none` on that failure
branch (Python `KeyError`). -/
def faceToFacesChecked (s : Shape) : Option (ℕ → Finset ℕ) :=
  if (List.range s.faces.length).all (fun f => decide (f ∈ faceToFacesPre s f)) then
    some (faceToFaces s)
  else
    none

/-- Enumerate a set of face/edge indices in increasing index order (the
embedding's canonical stand-in for Python's unspecified hash-set iteration
order; every set involved only holds indices below `n`). -/
def ascList (n : ℕ) (t : Finset ℕ) : List ℕ :=
  (List.range n).filter fun i => decide (i ∈ t)

/-- The early-exit gate: fewer than 2 horizontal planes, or any bad
surface. -/
def earlyGate (s : Shape) : Bool :=
  decide ((horizontalPlanes s).card < 2) || decide ((badSurfaces s).Nonempty)

/-- The 20-by-20 sampling heuristic over every leftover surface: true iff
some sample's normal has a nonvanishing layering-axis component. -/
def samplingFlag (s : Shape) : Bool :=
  (ascList s.faces.length (leftovers s)).any fun f =>
    let fc := s.face f
    let u1 := fc.paramRange.1
    let u2 := fc.paramRange.2.1
    let v1 := fc.paramRange.2.2.1
    let v2 := fc.paramRange.2.2.2
    (List.range 20).any fun a =>
      (List.range 20).any fun b =>
        !is_close (fc.normalAt ((u2 - u1) * a / 20 + u1) ((v2 - v1) * b / 20 + v1)).z 0

/-- Radius detector: one aggregate issue when any off-axis cylinder or cone
is present. -/
def radiusIssues (s : Shape) : List Issue :=
  if (cylinders s \ verticalCylinders s).Nonempty ∨ (cones s \ verticalCones s).Nonempty then
    [⟨.radius, none⟩]
  else
    []

/-- Test-point-in-parameter-bounds check of the tight-corner detector. -/
def inParamRange (f : Face) (p : Vec3) : Bool :=
  let ut := (f.parameter p).1
  let vt := (f.parameter p).2
  let u1 := f.paramRange.1
  let u2 := f.paramRange.2.1
  let v1 := f.paramRange.2.2.1
  let v2 := f.paramRange.2.2.2
  decide (u1 ≤ ut ∧ ut ≤ u2 ∧ v1 ≤ vt ∧ vt ≤ v2)

/-- Tight-corner detector at one edge: vertical straight edge with exactly 2
incident faces; classify by the angle of the normals there; report only when
the offset test point lies inside both faces' parameter bounds. -/
def cornerIssueAt (s : Shape) (e : ℕ) : List Issue :=
  match ascList s.faces.length (edgeToFaces s e) with
  | [i, j] =>
    match s.edge e with
    | .line sp ep =>
      let ev := ep - sp
      if is_close ev.x 0 && is_close ev.y 0 then
        let fi := s.face i
        let fj := s.face j
        let ni := fi.normalAt (fi.parameter sp).1 (fi.parameter sp).2
        let nj := fj.normalAt (fj.parameter sp).1 (fj.parameter sp).2
        let angle := s.getAngle ni nj
        if isCloseTol angle 0 (1 / 10 ^ 6) then
          []
        else
          let poss : Issue :=
            if shallowLimit < angle then ⟨.tightCorner, none⟩ else ⟨.tightCornerMild, none⟩
          let tp := (s.normalize (ni + nj)).smul (1 / 1000) + sp
          if inParamRange fi tp && inParamRange fj tp then [poss] else []
      else
        []
    | .other => []
  | _ => []

/-- All tight-corner issues, over every edge. -/
def cornerIssues (s : Shape) : List Issue :=
  (List.range s.edges.length).flatMap (cornerIssueAt s)

/-- Axis-center coincidence in x and y (tolerance 1e-13). -/
def alignedCenters (s : Shape) (i j : ℕ) : Bool :=
  is_close (s.face i).surface.centerOf.x (s.face j).surface.centerOf.x &&
    is_close (s.face i).surface.centerOf.y (s.face j).surface.centerOf.y

/-- Countersink acceptance test for a face pair: exactly one vertical cone
and one vertical cylinder, both concave, axis centers coincident. -/
def countersinkPair (s : Shape) (i j : ℕ) : Bool :=
  (decide (i ∈ verticalCones s) && decide (j ∈ verticalCylinders s) ||
      decide (j ∈ verticalCones s) && decide (i ∈ verticalCylinders s)) &&
    is_concave (s.face i) && is_concave (s.face j) && alignedCenters s i j

/-- Countersink detector at one edge. -/
def countersinkIssueAt (s : Shape) (e : ℕ) : List Issue :=
  match ascList s.faces.length (edgeToFaces s e) with
  | [i, j] => if countersinkPair s i j then [⟨.counterSink, some [i, j]⟩] else []
  | _ => []

/-- All countersink issues, over every edge. -/
def countersinkIssues (s : Shape) : List Issue :=
  (List.range s.edges.length).flatMap (countersinkIssueAt s)

/-- Source `countersink_cones`: cones claimed by the countersink detector. -/
def countersinkCones (s : Shape) : Finset ℕ :=
  (Finset.range s.edges.length).biUnion fun e =>
    match ascList s.faces.length (edgeToFaces s e) with
    | [i, j] =>
      if countersinkPair s i j then ({i, j} : Finset ℕ) ∩ verticalCones s else ∅
    | _ => ∅

/-- The concave vertical cylinders adjacent to a horizontal plane. -/
def concaveCylsOf (s : Shape) (p : ℕ) : List ℕ :=
  (ascList s.faces.length (faceToFaces s p ∩ verticalCylinders s)).filter fun c =>
    is_concave (s.face c)

/-- Counterbore acceptance test for a cylinder pair: radii differ, top
heights differ, axis centers coincide. -/
def counterborePairOk (s : Shape) (c1 c2 : ℕ) : Bool :=
  !is_close (s.face c1).surface.radiusOf (s.face c2).surface.radiusOf &&
    !is_close (s.face c1).boundBox.zMax (s.face c2).boundBox.zMax &&
    alignedCenters s c1 c2

/-- All ordered-by-position pairs of a list (`itertools.combinations(l, 2)`). -/
def pairsOf : List ℕ → List (ℕ × ℕ)
  | [] => []
  | x :: xs => xs.map (fun y => (x, y)) ++ pairsOf xs

/-- Counterbore detector at one horizontal plane. -/
def counterboreIssuesAt (s : Shape) (p : ℕ) : List Issue :=
  (pairsOf (concaveCylsOf s p)).flatMap fun pr =>
    if counterborePairOk s pr.1 pr.2 then [⟨.counterBore, some [pr.1, pr.2, p]⟩] else []

/-- All counterbore issues, over every horizontal plane. -/
def counterboreIssues (s : Shape) : List Issue :=
  (ascList s.faces.length (horizontalPlanes s)).flatMap (counterboreIssuesAt s)

/-- Source `counterbore_planes`: horizontal planes claimed by the counterbore
detector (those at which some pair fired). -/
def counterborePlanes (s : Shape) : Finset ℕ :=
  (horizontalPlanes s).filter fun p => counterboreIssuesAt s p ≠ []

/-- Source `interesting_fs` of the small-hole detector: adjacent faces that are
neither horizontal planes nor cylinders nor cones. -/
def interestingOf (s : Shape) (c : ℕ) : Finset ℕ :=
  ((faceToFaces s c \ horizontalPlanes s) \ cylinders s) \ cones s

/-- Small-hole / radius-as-corner detector at one vertical cylinder. -/
def smallHoleIssueAt (s : Shape) (kerf : ℚ) (c : ℕ) : List Issue :=
  if decide ((s.face c).surface.radiusOf < 1 / 2 * kerf) && is_concave (s.face c) then
    if interestingOf s c = ∅ then
      [⟨.smallHole, some [c]⟩]
    else
      let fc := s.face c
      let u1 := fc.paramRange.1
      let u2 := fc.paramRange.2.1
      let v1 := fc.paramRange.2.2.1
      let v2 := fc.paramRange.2.2.2
      let angle := s.getAngle (fc.normalAt u1 v1) (fc.normalAt u2 v2)
      if shallowLimit < angle then [⟨.tightCorner, none⟩] else [⟨.tightCornerMild, none⟩]
  else
    []

/-- All small-hole / radius-as-corner issues, over every vertical cylinder. -/
def smallHoleIssues (s : Shape) (kerf : ℚ) : List Issue :=
  (ascList s.faces.length (verticalCylinders s)).flatMap (smallHoleIssueAt s kerf)

/-- Source `tight_corner_sets`: the `interesting_fs` groups remembered by the
small-hole detector for suppression in the small-cut detector. -/
def tightCornerSets (s : Shape) (kerf : ℚ) : List (Finset ℕ) :=
  ((ascList s.faces.length (verticalCylinders s)).filter fun c =>
      decide ((s.face c).surface.radiusOf < 1 / 2 * kerf) && is_concave (s.face c) &&
        !decide (interestingOf s c = ∅)).map
    (interestingOf s)

/-- The separation vector between the closest points the kernel distance
query reports: from the point on face i to the point on face j. -/
def sepVec (s : Shape) (i j : ℕ) : Vec3 := (s.dist i j).2.2 - (s.dist i j).2.1

/-- A face's outward normal at a spatial point: the source's
`normalAt(*Surface.parameter(p))` composition. -/
def normalAtPoint (s : Shape) (f : ℕ) (p : Vec3) : Vec3 :=
  (s.face f).normalAt ((s.face f).parameter p).1 ((s.face f).parameter p).2

/-- Small-cut detector for one candidate pair: tight-corner-group
suppression, enlarged-bounding-box prune, exact distance threshold, then the
two normal-direction tests at the closest points. -/
def smallCutPairIssue (s : Shape) (kerf : ℚ) (tcs : List (Finset ℕ)) (i j : ℕ) :
    List Issue :=
  if tcs.any (fun t => decide (i ∈ t) && decide (j ∈ t)) then
    []
  else if !BBox.intersects ((s.face i).boundBox.enlarge (1 / 2 * kerf))
      ((s.face j).boundBox.enlarge (1 / 2 * kerf)) then
    []
  else if kerf < (s.dist i j).1 then
    []
  else if (normalAtPoint s i (s.dist i j).2.1).dot (sepVec s i j) < 0 then
    []
  else if (normalAtPoint s j (s.dist i j).2.2).dot (-(sepVec s i j)) < 0 then
    []
  else
    [⟨.smallCut, some [i, j]⟩]

/-- The non-horizontal faces, over which the small-cut detector iterates. -/
def nonHorizontal (s : Shape) : Finset ℕ :=
  Finset.range s.faces.length \ horizontalPlanes s

/-- All small-cut issues: every unordered pair of distinct non-adjacent
non-horizontal faces, processed once with the lower index first. -/
def smallCutIssues (s : Shape) (kerf : ℚ) : List Issue :=
  (ascList s.faces.length (nonHorizontal s)).flatMap fun i =>
    ((ascList s.faces.length (nonHorizontal s)).filter fun j =>
        decide (i < j) && !decide (j ∈ faceToFaces s i)).flatMap
      (smallCutPairIssue s kerf (tightCornerSets s kerf) i)

/-- A face spans the full top-to-bottom extent of the shape. -/
def fullDepth (s : Shape) (f : ℕ) : Bool :=
  is_close (s.face f).boundBox.zMax s.boundBox.zMax &&
    is_close (s.face f).boundBox.zMin s.boundBox.zMin

/-- Draft/chamfer loop with its two already-reported flags. -/
def draftChamferLoop (s : Shape) : Bool → Bool → List ℕ → List Issue
  | _, _, [] => []
  | dr, ch, f :: rest =>
    if fullDepth s f then
      if dr then draftChamferLoop s dr ch rest
      else ⟨.draft, none⟩ :: draftChamferLoop s true ch rest
    else
      if ch then draftChamferLoop s dr ch rest
      else ⟨.chamfer, none⟩ :: draftChamferLoop s dr true rest

/-- Draft/chamfer detector over the angled planes and the vertical cones not
claimed by the countersink detector. -/
def draftChamferIssues (s : Shape) : List Issue :=
  draftChamferLoop s false false
    (ascList s.faces.length (angledPlanes s) ++ ascList s.faces.length (verticalCones s \ countersinkCones s))

/-- Residual non-uniform check: horizontal planes not claimed as counterbore
shoulders must be exactly the top and the bottom. -/
def residualIssues (s : Shape) : List Issue :=
  if (horizontalPlanes s \ counterborePlanes s).card ≠ 2 then [⟨.nonUniform, none⟩] else []

/-- The issue list of the main pipeline (after both early gates passed). -/
def mainIssues (s : Shape) : List Issue :=
  radiusIssues s ++ cornerIssues s ++ countersinkIssues s ++ counterboreIssues s ++
    smallHoleIssues s (kerfWidth s) ++ smallCutIssues s (kerfWidth s) ++
    draftChamferIssues s ++ residualIssues s

/-- Source `dfm_check`: the whole checker. -/
def dfm_check (s : Shape) : CheckResult :=
  if earlyGate s then ⟨[⟨.nonUniform, none⟩]⟩
  else if samplingFlag s then ⟨[⟨.nonUniform, none⟩]⟩
  else ⟨mainIssues s⟩

/-! ## Membership characterisations of the topology graph -/

theorem mem_ascList {n : ℕ} {t : Finset ℕ} {i : ℕ} :
    i ∈ ascList n t ↔ i < n ∧ i ∈ t := by
  simp [ascList, List.mem_filter, List.mem_range]

theorem mem_edgeToFaces {s : Shape} {e i : ℕ} :
    i ∈ edgeToFaces s e ↔ i < s.faces.length ∧ e ∈ (s.face i).edges := by
  simp [edgeToFaces]

theorem mem_faceToFacesPre {s : Shape} {f g : ℕ} :
    g ∈ faceToFacesPre s f ↔
      g < s.faces.length ∧ ∃ e ∈ (s.face f).edges, e ∈ (s.face g).edges := by
  simp only [faceToFacesPre, Finset.mem_biUnion, List.mem_toFinset, mem_edgeToFaces]
  constructor
  · rintro ⟨e, he, hg, hge⟩
    exact ⟨hg, e, he, hge⟩
  · rintro ⟨hg, e, he, hge⟩
    exact ⟨e, he, hg, hge⟩

theorem mem_faceToFaces {s : Shape} {f g : ℕ} :
    g ∈ faceToFaces s f ↔
      g ≠ f ∧ g < s.faces.length ∧ ∃ e ∈ (s.face f).edges, e ∈ (s.face g).edges := by
  simp [faceToFaces, Finset.mem_erase, mem_faceToFacesPre]

/-! ## What each detector stage can emit -/

theorem mem_radiusIssues {s : Shape} {i : Issue} (h : i ∈ radiusIssues s) :
    i = ⟨.radius, none⟩ := by
  unfold radiusIssues at h
  split at h <;> simp_all

theorem radiusIssues_of_offAxis {s : Shape}
    (h : (cylinders s \ verticalCylinders s).Nonempty ∨ (cones s \ verticalCones s).Nonempty) :
    radiusIssues s = [⟨.radius, none⟩] := by
  unfold radiusIssues
  simp [h]

theorem radiusIssues_of_not_offAxis {s : Shape}
    (h : ¬((cylinders s \ verticalCylinders s).Nonempty ∨ (cones s \ verticalCones s).Nonempty)) :
    radiusIssues s = [] := by
  unfold radiusIssues
  simp [h]

theorem mem_cornerIssueAt {s : Shape} {e : ℕ} {i : Issue} (h : i ∈ cornerIssueAt s e) :
    i.faces = none ∧ (i.issue = .tightCorner ∨ i.issue = .tightCornerMild) := by
  unfold cornerIssueAt at h
  repeat' split at h
  all_goals simp_all
  all_goals split <;> simp

theorem mem_cornerIssues {s : Shape} {i : Issue} (h : i ∈ cornerIssues s) :
    i.faces = none ∧ (i.issue = .tightCorner ∨ i.issue = .tightCornerMild) := by
  unfold cornerIssues at h
  rw [List.mem_flatMap] at h
  obtain ⟨e, _, hmem⟩ := h
  exact mem_cornerIssueAt hmem

theorem mem_countersinkIssueAt {s : Shape} {e : ℕ} {i : Issue}
    (h : i ∈ countersinkIssueAt s e) :
    ∃ a b, ascList s.faces.length (edgeToFaces s e) = [a, b] ∧
      countersinkPair s a b = true ∧ i = ⟨.counterSink, some [a, b]⟩ := by
  unfold countersinkIssueAt at h
  split at h
  next a b heq =>
    split at h
    next hpair =>
      simp only [List.mem_singleton] at h
      exact ⟨a, b, heq, hpair, h⟩
    next => simp at h
  next => simp at h

theorem mem_countersinkIssues {s : Shape} {i : Issue} (h : i ∈ countersinkIssues s) :
    ∃ e, e ∈ List.range s.edges.length ∧ ∃ a b,
      ascList s.faces.length (edgeToFaces s e) = [a, b] ∧
      countersinkPair s a b = true ∧ i = ⟨.counterSink, some [a, b]⟩ := by
  unfold countersinkIssues at h
  rw [List.mem_flatMap] at h
  obtain ⟨e, he, hmem⟩ := h
  exact ⟨e, he, mem_countersinkIssueAt hmem⟩

theorem mem_pairsOf {l : List ℕ} {a b : ℕ} (h : (a, b) ∈ pairsOf l) :
    a ∈ l ∧ b ∈ l := by
  induction l with
  | nil => simp [pairsOf] at h
  | cons x xs ih =>
    simp only [pairsOf, List.mem_append, List.mem_map] at h
    rcases h with ⟨y, hy, hxy⟩ | h
    · rw [Prod.mk.injEq] at hxy
      obtain ⟨rfl, rfl⟩ := hxy
      exact ⟨List.mem_cons_self _ _, List.mem_cons_of_mem _ hy⟩
    · obtain ⟨h1, h2⟩ := ih h
      exact ⟨List.mem_cons_of_mem _ h1, List.mem_cons_of_mem _ h2⟩

theorem pairsOf_of_mem {l : List ℕ} {a b : ℕ} (hne : a ≠ b) (ha : a ∈ l) (hb : b ∈ l) :
    (a, b) ∈ pairsOf l ∨ (b, a) ∈ pairsOf l := by
  induction l with
  | nil => simp at ha
  | cons x xs ih =>
    rcases List.mem_cons.mp ha with ha1 | ha2
    · rcases List.mem_cons.mp hb with hb1 | hb2
      · exact absurd (ha1.trans hb1.symm) hne
      · refine Or.inl ?_
        simp only [pairsOf, List.mem_append, List.mem_map]
        exact Or.inl ⟨b, hb2, by rw [ha1]⟩
    · rcases List.mem_cons.mp hb with hb1 | hb2
      · refine Or.inr ?_
        simp only [pairsOf, List.mem_append, List.mem_map]
        exact Or.inl ⟨a, ha2, by rw [hb1]⟩
      · rcases ih ha2 hb2 with h | h
        · refine Or.inl ?_
          simp only [pairsOf, List.mem_append]
          exact Or.inr h
        · refine Or.inr ?_
          simp only [pairsOf, List.mem_append]
          exact Or.inr h

theorem mem_concaveCylsOf {s : Shape} {p c : ℕ} :
    c ∈ concaveCylsOf s p ↔
      c < s.faces.length ∧ c ∈ faceToFaces s p ∧ c ∈ verticalCylinders s ∧
        is_concave (s.face c) = true := by
  simp only [concaveCylsOf, List.mem_filter, mem_ascList, Finset.mem_inter]
  tauto

theorem mem_counterboreIssuesAt {s : Shape} {p : ℕ} {i : Issue}
    (h : i ∈ counterboreIssuesAt s p) :
    ∃ c1 c2, (c1, c2) ∈ pairsOf (concaveCylsOf s p) ∧
      counterborePairOk s c1 c2 = true ∧ i = ⟨.counterBore, some [c1, c2, p]⟩ := by
  unfold counterboreIssuesAt at h
  rw [List.mem_flatMap] at h
  obtain ⟨pr, hpr, hmem⟩ := h
  refine ⟨pr.1, pr.2, hpr, ?_⟩
  split at hmem <;> simp_all

theorem mem_counterboreIssues {s : Shape} {i : Issue} (h : i ∈ counterboreIssues s) :
    ∃ p, p < s.faces.length ∧ p ∈ horizontalPlanes s ∧
      ∃ c1 c2, (c1, c2) ∈ pairsOf (concaveCylsOf s p) ∧
        counterborePairOk s c1 c2 = true ∧ i = ⟨.counterBore, some [c1, c2, p]⟩ := by
  unfold counterboreIssues at h
  rw [List.mem_flatMap] at h
  obtain ⟨p, hp, hmem⟩ := h
  rw [mem_ascList] at hp
  exact ⟨p, hp.1, hp.2, mem_counterboreIssuesAt hmem⟩

theorem mem_smallHoleIssueAt {s : Shape} {kerf : ℚ} {c : ℕ} {i : Issue}
    (h : i ∈ smallHoleIssueAt s kerf c) :
    i = ⟨.smallHole, some [c]⟩ ∨
      (i.faces = none ∧ (i.issue = .tightCorner ∨ i.issue = .tightCornerMild)) := by
  unfold smallHoleIssueAt at h
  split at h
  next =>
    split at h
    next => simp_all
    next =>
      dsimp only at h
      split at h <;> simp_all
  next => simp at h

theorem mem_smallHoleIssues {s : Shape} {kerf : ℚ} {i : Issue}
    (h : i ∈ smallHoleIssues s kerf) :
    (∃ c, c ∈ verticalCylinders s ∧ i = ⟨.smallHole, some [c]⟩) ∨
      (i.faces = none ∧ (i.issue = .tightCorner ∨ i.issue = .tightCornerMild)) := by
  unfold smallHoleIssues at h
  rw [List.mem_flatMap] at h
  obtain ⟨c, hc, hmem⟩ := h
  rw [mem_ascList] at hc
  rcases mem_smallHoleIssueAt hmem with h1 | h1
  · exact Or.inl ⟨c, hc.2, h1⟩
  · exact Or.inr h1

theorem mem_smallCutPairIssue {s : Shape} {kerf : ℚ} {tcs : List (Finset ℕ)}
    {a b : ℕ} {i : Issue} (h : i ∈ smallCutPairIssue s kerf tcs a b) :
    i = ⟨.smallCut, some [a, b]⟩ := by
  unfold smallCutPairIssue at h
  repeat' split at h
  all_goals simp_all

theorem mem_smallCutIssues {s : Shape} {kerf : ℚ} {i : Issue}
    (h : i ∈ smallCutIssues s kerf) :
    ∃ a b, a < b ∧ a ∈ nonHorizontal s ∧ b ∈ nonHorizontal s ∧
      b ∉ faceToFaces s a ∧ i = ⟨.smallCut, some [a, b]⟩ ∧
      i ∈ smallCutPairIssue s kerf (tightCornerSets s kerf) a b := by
  unfold smallCutIssues at h
  simp only [List.mem_flatMap, List.mem_filter, mem_ascList] at h
  obtain ⟨a, ⟨_, ha⟩, b, ⟨⟨_, hb⟩, hcond⟩, hmem⟩ := h
  rw [Bool.and_eq_true, decide_eq_true_eq, Bool.not_eq_eq_eq_not, Bool.not_true,
    decide_eq_false_iff_not] at hcond
  exact ⟨a, b, hcond.1, ha, hb, hcond.2, mem_smallCutPairIssue hmem, hmem⟩

theorem mem_draftChamferLoop {s : Shape} {dr ch : Bool} {l : List ℕ} {i : Issue}
    (h : i ∈ draftChamferLoop s dr ch l) :
    i = ⟨.draft, none⟩ ∨ i = ⟨.chamfer, none⟩ := by
  induction l generalizing dr ch with
  | nil => simp [draftChamferLoop] at h
  | cons f rest ih =>
    unfold draftChamferLoop at h
    repeat' split at h
    all_goals
      first
      | exact ih h
      | (rcases List.mem_cons.mp h with h1 | h1
         · simp [h1]
         · exact ih h1)

theorem mem_draftChamferIssues {s : Shape} {i : Issue} (h : i ∈ draftChamferIssues s) :
    i = ⟨.draft, none⟩ ∨ i = ⟨.chamfer, none⟩ :=
  mem_draftChamferLoop h

theorem mem_residualIssues {s : Shape} {i : Issue} (h : i ∈ residualIssues s) :
    i = ⟨.nonUniform, none⟩ := by
  unfold residualIssues at h
  split at h <;> simp_all

/-! ## Decomposition of the final issue list -/

theorem dfm_check_gate {s : Shape} (h : earlyGate s = true) :
    dfm_check s = ⟨[⟨.nonUniform, none⟩]⟩ := by
  unfold dfm_check
  simp [h]

theorem dfm_check_main {s : Shape} (h1 : earlyGate s = false)
    (h2 : samplingFlag s = false) : (dfm_check s).issues = mainIssues s := by
  unfold dfm_check
  simp [h1, h2]

theorem mem_mainIssues {s : Shape} {i : Issue} :
    i ∈ mainIssues s ↔
      i ∈ radiusIssues s ∨ i ∈ cornerIssues s ∨ i ∈ countersinkIssues s ∨
        i ∈ counterboreIssues s ∨ i ∈ smallHoleIssues s (kerfWidth s) ∨
        i ∈ smallCutIssues s (kerfWidth s) ∨ i ∈ draftChamferIssues s ∨
        i ∈ residualIssues s := by
  simp [mainIssues, List.mem_append, or_assoc]

theorem earlyGate_true_of (s : Shape)
    (h : (badSurfaces s).Nonempty ∨ (horizontalPlanes s).card < 2) :
    earlyGate s = true := by
  unfold earlyGate
  rcases h with h | h <;> simp [h]

/-! ## Concrete shapes used as evaluation witnesses -/

/-- The shape with no faces at all (no horizontal planes, so the early gate
fires). -/
def emptyShape : Shape where
  boundBox := ⟨0, 0, 0, 0, 0, 0⟩
  faces := []
  edges := []
  dist := fun _ _ => (0, ⟨0, 0, 0⟩, ⟨0, 0, 0⟩)
  getAngle := fun _ _ => 0
  normalize := fun v => v

/-- Two vertical-wall plane faces joined along one shared edge. -/
def adjShape : Shape where
  boundBox := ⟨0, 1, 0, 1, 0, 1⟩
  faces :=
    [{ defaultFace with surface := .plane ⟨1, 0, 0⟩, edges := [0] },
     { defaultFace with surface := .plane ⟨0, 1, 0⟩, edges := [0] }]
  edges := [.other]
  dist := fun _ _ => (0, ⟨0, 0, 0⟩, ⟨0, 0, 0⟩)
  getAngle := fun _ _ => 0
  normalize := fun v => v

/-! ## C1: early non-uniform exit -/

/-- C1: if the input contains any sphere or torus face, or has fewer than 2
horizontal planes, `dfm_check` returns exactly one `non-uniform` issue with a
null face list and nothing else (no other detector contributes any issue). -/
theorem dfm_check_early_nonuniform (s : Shape)
    (h : (badSurfaces s).Nonempty ∨ (horizontalPlanes s).card < 2) :
    (dfm_check s).issues = [⟨.nonUniform, none⟩] := by
  rw [dfm_check_gate (earlyGate_true_of s h)]

-- Evaluation witness for C1 on the empty shape.
unseal Rat.add Rat.sub Rat.mul Rat.inv Rat.ofScientific in
theorem dfm_check_early_nonuniform_witness :
    (horizontalPlanes emptyShape).card < 2 ∧
      (dfm_check emptyShape).issues = [⟨.nonUniform, none⟩] :=
  ⟨by decide, dfm_check_early_nonuniform emptyShape (Or.inr (by decide))⟩

/-! ## C7: adjacency symmetry and irreflexivity -/

/-- C7: the face adjacency map is symmetric and irreflexive: for distinct
faces f and g of the shape, g is adjacent to f iff f is adjacent to g, and
this holds exactly when f and g share at least one edge; no face is adjacent
to itself. -/
theorem faceToFaces_symm (s : Shape) (f g : ℕ) (hf : f < s.faces.length)
    (hg : g < s.faces.length) (hfg : f ≠ g) :
    (g ∈ faceToFaces s f ↔ f ∈ faceToFaces s g) ∧
      (g ∈ faceToFaces s f ↔ ∃ e, e ∈ (s.face f).edges ∧ e ∈ (s.face g).edges) ∧
      f ∉ faceToFaces s f := by
  refine ⟨?_, ?_, ?_⟩
  · rw [mem_faceToFaces, mem_faceToFaces]
    constructor
    · rintro ⟨_, _, e, he1, he2⟩
      exact ⟨hfg, hf, e, he2, he1⟩
    · rintro ⟨_, _, e, he1, he2⟩
      exact ⟨hfg.symm, hg, e, he2, he1⟩
  · rw [mem_faceToFaces]
    constructor
    · rintro ⟨_, _, e, he1, he2⟩
      exact ⟨e, he1, he2⟩
    · rintro ⟨e, he1, he2⟩
      exact ⟨hfg.symm, hg, e, he1, he2⟩
  · rw [mem_faceToFaces]
    rintro ⟨hne, _⟩
    exact hne rfl

/-- Evaluation witness for C7 on the two-wall shape. -/
theorem faceToFaces_symm_witness :
    0 < adjShape.faces.length ∧ 1 < adjShape.faces.length ∧ (0 : ℕ) ≠ 1 ∧
      ((1 ∈ faceToFaces adjShape 0 ↔ 0 ∈ faceToFaces adjShape 1) ∧
        (1 ∈ faceToFaces adjShape 0 ↔
          ∃ e, e ∈ (adjShape.face 0).edges ∧ e ∈ (adjShape.face 1).edges) ∧
        0 ∉ faceToFaces adjShape 0) :=
  ⟨by decide, by decide, by decide,
    faceToFaces_symm adjShape 0 1 (by decide) (by decide) (by decide)⟩

/-! ## C10: the self-removal pass cannot fail -/

/-- C10: when every face has at least one edge, each face is a member of its
own aggregated incident-face set before the self-removal pass, hence the
checked construction (whose `none` branch is the Python `KeyError` of
`set.remove`) always succeeds. -/
theorem faceToFacesChecked_isSome (s : Shape)
    (h : ∀ f, f < s.faces.length → (s.face f).edges ≠ []) :
    (∀ f, f < s.faces.length → f ∈ faceToFacesPre s f) ∧
      (faceToFacesChecked s).isSome = true := by
  have hpre : ∀ f, f < s.faces.length → f ∈ faceToFacesPre s f := by
    intro f hf
    obtain ⟨e, he⟩ := List.exists_mem_of_ne_nil _ (h f hf)
    rw [mem_faceToFacesPre]
    exact ⟨hf, e, he, he⟩
  refine ⟨hpre, ?_⟩
  unfold faceToFacesChecked
  rw [if_pos]
  · rfl
  · rw [List.all_eq_true]
    intro f hf
    rw [List.mem_range] at hf
    exact decide_eq_true (hpre f hf)

/-- Evaluation witness for C10 on the two-wall shape. -/
theorem faceToFacesChecked_isSome_witness :
    (∀ f, f < adjShape.faces.length → (adjShape.face f).edges ≠ []) ∧
      (faceToFacesChecked adjShape).isSome = true :=
  ⟨by decide, (faceToFacesChecked_isSome adjShape (by decide)).2⟩

/-! ## Counting helpers -/

theorem countP_kind_zero (l : List Issue) (k : IssueKind)
    (h : ∀ i ∈ l, i.issue ≠ k) :
    l.countP (fun i => decide (i.issue = k)) = 0 := by
  rw [List.countP_eq_zero]
  intro i hi
  simpa using h i hi

theorem countP_flatMap_eq {α β : Type} (l : List α) (f : α → List β) (p : β → Bool) :
    (l.flatMap f).countP p = (l.map (fun a => (f a).countP p)).sum := by
  induction l with
  | nil => simp
  | cons x xs ih => simp [List.flatMap_cons, List.countP_append, ih]

theorem draftChamferLoop_count_draft (s : Shape) (l : List ℕ) :
    ∀ dr ch : Bool,
      (draftChamferLoop s dr ch l).countP (fun i => decide (i.issue = .draft)) ≤ 1 ∧
        (dr = true →
          (draftChamferLoop s dr ch l).countP (fun i => decide (i.issue = .draft)) = 0) := by
  induction l with
  | nil => intro dr ch; simp [draftChamferLoop]
  | cons f rest ih =>
    intro dr ch
    unfold draftChamferLoop
    split
    · split
      next hdr =>
        refine ⟨(ih dr ch).1, fun h2 => (ih dr ch).2 h2⟩
      next hdr =>
        have h0 := (ih true ch).2 rfl
        rw [List.countP_cons_of_pos _ _ (by simp)]
        rw [h0]
        exact ⟨le_refl 1, fun h2 => absurd h2 hdr⟩
    · split
      next hch =>
        refine ⟨(ih dr ch).1, fun h2 => (ih dr ch).2 h2⟩
      next hch =>
        rw [List.countP_cons_of_neg _ _ (by simp)]
        exact ⟨(ih dr true).1, fun h2 => (ih dr true).2 h2⟩

theorem draftChamferLoop_count_chamfer (s : Shape) (l : List ℕ) :
    ∀ dr ch : Bool,
      (draftChamferLoop s dr ch l).countP (fun i => decide (i.issue = .chamfer)) ≤ 1 ∧
        (ch = true →
          (draftChamferLoop s dr ch l).countP (fun i => decide (i.issue = .chamfer)) = 0) := by
  induction l with
  | nil => intro dr ch; simp [draftChamferLoop]
  | cons f rest ih =>
    intro dr ch
    unfold draftChamferLoop
    split
    · split
      next hdr =>
        refine ⟨(ih dr ch).1, fun h2 => (ih dr ch).2 h2⟩
      next hdr =>
        rw [List.countP_cons_of_neg _ _ (by simp)]
        exact ⟨(ih true ch).1, fun h2 => (ih true ch).2 h2⟩
    · split
      next hch =>
        refine ⟨(ih dr ch).1, fun h2 => (ih dr ch).2 h2⟩
      next hch =>
        have h0 := (ih dr true).2 rfl
        rw [List.countP_cons_of_pos _ _ (by simp)]
        rw [h0]
        exact ⟨le_refl 1, fun h2 => absurd h2 hch⟩

theorem radiusIssues_kind {s : Shape} : ∀ i ∈ radiusIssues s, i.issue = .radius := by
  intro i hi
  rw [mem_radiusIssues hi]

theorem cornerIssues_kind {s : Shape} :
    ∀ i ∈ cornerIssues s, i.issue = .tightCorner ∨ i.issue = .tightCornerMild :=
  fun _ hi => (mem_cornerIssues hi).2

theorem countersinkIssues_kind {s : Shape} :
    ∀ i ∈ countersinkIssues s, i.issue = .counterSink := by
  intro i hi
  obtain ⟨_, _, _, _, _, _, hrec⟩ := mem_countersinkIssues hi
  rw [hrec]

theorem counterboreIssues_kind {s : Shape} :
    ∀ i ∈ counterboreIssues s, i.issue = .counterBore := by
  intro i hi
  obtain ⟨_, _, _, _, _, _, _, hrec⟩ := mem_counterboreIssues hi
  rw [hrec]

theorem smallHoleIssues_kind {s : Shape} {kerf : ℚ} :
    ∀ i ∈ smallHoleIssues s kerf,
      i.issue = .smallHole ∨ i.issue = .tightCorner ∨ i.issue = .tightCornerMild := by
  intro i hi
  rcases mem_smallHoleIssues hi with ⟨c, _, hrec⟩ | ⟨_, hk⟩
  · rw [hrec]
    simp
  · tauto

theorem smallCutIssues_kind {s : Shape} {kerf : ℚ} :
    ∀ i ∈ smallCutIssues s kerf, i.issue = .smallCut := by
  intro i hi
  obtain ⟨_, _, _, _, _, _, hrec, _⟩ := mem_smallCutIssues hi
  rw [hrec]

theorem draftChamferIssues_kind {s : Shape} :
    ∀ i ∈ draftChamferIssues s, i.issue = .draft ∨ i.issue = .chamfer := by
  intro i hi
  rcases mem_draftChamferIssues hi with h | h <;> rw [h] <;> simp

theorem residualIssues_kind {s : Shape} :
    ∀ i ∈ residualIssues s, i.issue = .nonUniform := by
  intro i hi
  rw [mem_residualIssues hi]

/-! ## C6: draft and chamfer at most once -/

/-- C6: in every returned issue list a `draft` issue appears at most once and
a `chamfer` issue appears at most once, no matter how many angled planes or
unclaimed vertical cones qualify. -/
theorem dfm_check_draft_chamfer_at_most_once (s : Shape) :
    (dfm_check s).issues.countP (fun i => decide (i.issue = .draft)) ≤ 1 ∧
      (dfm_check s).issues.countP (fun i => decide (i.issue = .chamfer)) ≤ 1 := by
  unfold dfm_check
  split
  · simp
  split
  · simp
  constructor
  · show (mainIssues s).countP _ ≤ 1
    unfold mainIssues
    simp only [List.countP_append]
    rw [countP_kind_zero (radiusIssues s) .draft
        (fun i hi => by rw [radiusIssues_kind i hi]; simp),
      countP_kind_zero (cornerIssues s) .draft
        (fun i hi => by rcases cornerIssues_kind i hi with h | h <;> rw [h] <;> simp),
      countP_kind_zero (countersinkIssues s) .draft
        (fun i hi => by rw [countersinkIssues_kind i hi]; simp),
      countP_kind_zero (counterboreIssues s) .draft
        (fun i hi => by rw [counterboreIssues_kind i hi]; simp),
      countP_kind_zero (smallHoleIssues s (kerfWidth s)) .draft
        (fun i hi => by rcases smallHoleIssues_kind i hi with h | h | h <;> rw [h] <;> simp),
      countP_kind_zero (smallCutIssues s (kerfWidth s)) .draft
        (fun i hi => by rw [smallCutIssues_kind i hi]; simp),
      countP_kind_zero (residualIssues s) .draft
        (fun i hi => by rw [residualIssues_kind i hi]; simp)]
    simpa [draftChamferIssues] using
      (draftChamferLoop_count_draft s
        (ascList s.faces.length (angledPlanes s) ++
          ascList s.faces.length (verticalCones s \ countersinkCones s)) false false).1
  · show (mainIssues s).countP _ ≤ 1
    unfold mainIssues
    simp only [List.countP_append]
    rw [countP_kind_zero (radiusIssues s) .chamfer
        (fun i hi => by rw [radiusIssues_kind i hi]; simp),
      countP_kind_zero (cornerIssues s) .chamfer
        (fun i hi => by rcases cornerIssues_kind i hi with h | h <;> rw [h] <;> simp),
      countP_kind_zero (countersinkIssues s) .chamfer
        (fun i hi => by rw [countersinkIssues_kind i hi]; simp),
      countP_kind_zero (counterboreIssues s) .chamfer
        (fun i hi => by rw [counterboreIssues_kind i hi]; simp),
      countP_kind_zero (smallHoleIssues s (kerfWidth s)) .chamfer
        (fun i hi => by rcases smallHoleIssues_kind i hi with h | h | h <;> rw [h] <;> simp),
      countP_kind_zero (smallCutIssues s (kerfWidth s)) .chamfer
        (fun i hi => by rw [smallCutIssues_kind i hi]; simp),
      countP_kind_zero (residualIssues s) .chamfer
        (fun i hi => by rw [residualIssues_kind i hi]; simp)]
    simpa [draftChamferIssues] using
      (draftChamferLoop_count_chamfer s
        (ascList s.faces.length (angledPlanes s) ++
          ascList s.faces.length (verticalCones s \ countersinkCones s)) false false).1

/-! ## C8: face-list arity is determined by the issue kind -/

/-- C8: every issue in a returned list has the faces arity fixed by its kind:
counter-sink and small-cut carry exactly two face indices, counter-bore
exactly three (two vertical-cylinder indices and the horizontal-plane index),
small-hole exactly one, and all remaining kinds carry a null face list. -/
theorem issue_faces_arity (s : Shape) (i : Issue) (h : i ∈ (dfm_check s).issues) :
    (i.issue = .counterSink → ∃ a b, i.faces = some [a, b]) ∧
      (i.issue = .smallCut → ∃ a b, i.faces = some [a, b]) ∧
      (i.issue = .counterBore → ∃ a b p, i.faces = some [a, b, p] ∧
        a ∈ verticalCylinders s ∧ b ∈ verticalCylinders s ∧ p ∈ horizontalPlanes s) ∧
      (i.issue = .smallHole → ∃ c, i.faces = some [c]) ∧
      ((i.issue = .nonUniform ∨ i.issue = .radius ∨ i.issue = .draft ∨
          i.issue = .chamfer ∨ i.issue = .tightCorner ∨ i.issue = .tightCornerMild) →
        i.faces = none) := by
  unfold dfm_check at h
  split at h
  · simp only [List.mem_singleton] at h
    subst h
    refine ⟨by simp, by simp, by simp, by simp, fun _ => rfl⟩
  split at h
  · simp only [List.mem_singleton] at h
    subst h
    refine ⟨by simp, by simp, by simp, by simp, fun _ => rfl⟩
  rcases mem_mainIssues.mp h with hr | hc | hcs | hcb | hsh | hsc | hdc | hres
  · have := mem_radiusIssues hr
    subst this
    refine ⟨by simp, by simp, by simp, by simp, fun _ => rfl⟩
  · obtain ⟨hfaces, hkind⟩ := mem_cornerIssues hc
    refine ⟨?_, ?_, ?_, ?_, fun _ => hfaces⟩ <;> intro hk <;>
      rcases hkind with h1 | h1 <;> rw [hk] at h1 <;> cases h1
  · obtain ⟨e, _, a, b, _, _, hrec⟩ := mem_countersinkIssues hcs
    subst hrec
    refine ⟨fun _ => ⟨a, b, rfl⟩, by simp, by simp, by simp, by simp⟩
  · obtain ⟨p, _, hp, c1, c2, hpr, _, hrec⟩ := mem_counterboreIssues hcb
    subst hrec
    obtain ⟨h1, h2⟩ := mem_pairsOf hpr
    rw [mem_concaveCylsOf] at h1 h2
    refine ⟨by simp, by simp, fun _ => ⟨c1, c2, p, rfl, h1.2.2.1, h2.2.2.1, hp⟩,
      by simp, by simp⟩
  · rcases mem_smallHoleIssues hsh with ⟨c, _, hrec⟩ | ⟨hfaces, hkind⟩
    · subst hrec
      refine ⟨by simp, by simp, by simp, fun _ => ⟨c, rfl⟩, by simp⟩
    · refine ⟨?_, ?_, ?_, ?_, fun _ => hfaces⟩ <;> intro hk <;>
        rcases hkind with h1 | h1 <;> rw [hk] at h1 <;> cases h1
  · obtain ⟨a, b, _, _, _, _, hrec, _⟩ := mem_smallCutIssues hsc
    subst hrec
    refine ⟨by simp, fun _ => ⟨a, b, rfl⟩, by simp, by simp, by simp⟩
  · rcases mem_draftChamferIssues hdc with hrec | hrec <;> subst hrec <;>
      exact ⟨by simp, by simp, by simp, by simp, fun _ => rfl⟩
  · have := mem_residualIssues hres
    subst this
    refine ⟨by simp, by simp, by simp, by simp, fun _ => rfl⟩

-- Evaluation witness for C8 on the empty shape's single non-uniform issue.
unseal Rat.add Rat.sub Rat.mul Rat.inv Rat.ofScientific in
theorem issue_faces_arity_witness :
    (⟨.nonUniform, none⟩ : Issue) ∈ (dfm_check emptyShape).issues ∧
      ((⟨.nonUniform, none⟩ : Issue).faces = none) :=
  ⟨by decide,
    (issue_faces_arity emptyShape ⟨.nonUniform, none⟩ (by decide)).2.2.2.2 (Or.inl rfl)⟩

/-! ## Locating an issue's originating stage from its kind -/

theorem radius_mem_locate {s : Shape} {i : Issue} (h : i ∈ mainIssues s)
    (hk : i.issue = .radius) : i ∈ radiusIssues s := by
  rcases mem_mainIssues.mp h with hr | hc | hcs | hcb | hsh | hsc | hdc | hres
  · exact hr
  · have := cornerIssues_kind i hc; simp_all
  · have := countersinkIssues_kind i hcs; simp_all
  · have := counterboreIssues_kind i hcb; simp_all
  · have := smallHoleIssues_kind i hsh; simp_all
  · have := smallCutIssues_kind i hsc; simp_all
  · have := draftChamferIssues_kind i hdc; simp_all
  · have := residualIssues_kind i hres; simp_all

theorem countersink_mem_locate {s : Shape} {i : Issue} (h : i ∈ mainIssues s)
    (hk : i.issue = .counterSink) : i ∈ countersinkIssues s := by
  rcases mem_mainIssues.mp h with hr | hc | hcs | hcb | hsh | hsc | hdc | hres
  · have := radiusIssues_kind i hr; simp_all
  · have := cornerIssues_kind i hc; simp_all
  · exact hcs
  · have := counterboreIssues_kind i hcb; simp_all
  · have := smallHoleIssues_kind i hsh; simp_all
  · have := smallCutIssues_kind i hsc; simp_all
  · have := draftChamferIssues_kind i hdc; simp_all
  · have := residualIssues_kind i hres; simp_all

theorem smallCut_mem_locate {s : Shape} {i : Issue} (h : i ∈ mainIssues s)
    (hk : i.issue = .smallCut) : i ∈ smallCutIssues s (kerfWidth s) := by
  rcases mem_mainIssues.mp h with hr | hc | hcs | hcb | hsh | hsc | hdc | hres
  · have := radiusIssues_kind i hr; simp_all
  · have := cornerIssues_kind i hc; simp_all
  · have := countersinkIssues_kind i hcs; simp_all
  · have := counterboreIssues_kind i hcb; simp_all
  · have := smallHoleIssues_kind i hsh; simp_all
  · exact hsc
  · have := draftChamferIssues_kind i hdc; simp_all
  · have := residualIssues_kind i hres; simp_all

/-! ## C2: the radius detector -/

/-- C2 (amended): for every shape that passes both early non-uniform gates,
an off-axis cylinder or cone is present iff a radius issue is returned; a
radius issue appears at most once, always with a null face list.  (As frozen
the claim quantifies over all inputs; it fails on shapes stopped by the early
gate, see the counterexample.) -/
theorem dfm_check_radius_iff (s : Shape) (h1 : earlyGate s = false)
    (h2 : samplingFlag s = false) :
    (((cylinders s \ verticalCylinders s).Nonempty ∨
        (cones s \ verticalCones s).Nonempty) ↔
      ∃ i ∈ (dfm_check s).issues, i.issue = .radius) ∧
      (dfm_check s).issues.countP (fun i => decide (i.issue = .radius)) ≤ 1 ∧
      (∀ i ∈ (dfm_check s).issues, i.issue = .radius → i.faces = none) := by
  refine ⟨⟨?_, ?_⟩, ?_, ?_⟩
  · intro hoff
    refine ⟨⟨.radius, none⟩, ?_, rfl⟩
    rw [dfm_check_main h1 h2]
    exact mem_mainIssues.mpr (Or.inl (by rw [radiusIssues_of_offAxis hoff]; simp))
  · rintro ⟨i, hi, hk⟩
    rw [dfm_check_main h1 h2] at hi
    have hloc := radius_mem_locate hi hk
    by_contra hno
    rw [radiusIssues_of_not_offAxis hno] at hloc
    simp at hloc
  · rw [dfm_check_main h1 h2]
    unfold mainIssues
    simp only [List.countP_append]
    rw [countP_kind_zero (cornerIssues s) .radius
        (fun i hi => by rcases cornerIssues_kind i hi with h | h <;> rw [h] <;> simp),
      countP_kind_zero (countersinkIssues s) .radius
        (fun i hi => by rw [countersinkIssues_kind i hi]; simp),
      countP_kind_zero (counterboreIssues s) .radius
        (fun i hi => by rw [counterboreIssues_kind i hi]; simp),
      countP_kind_zero (smallHoleIssues s (kerfWidth s)) .radius
        (fun i hi => by rcases smallHoleIssues_kind i hi with h | h | h <;> rw [h] <;> simp),
      countP_kind_zero (smallCutIssues s (kerfWidth s)) .radius
        (fun i hi => by rw [smallCutIssues_kind i hi]; simp),
      countP_kind_zero (draftChamferIssues s) .radius
        (fun i hi => by rcases draftChamferIssues_kind i hi with h | h <;> rw [h] <;> simp),
      countP_kind_zero (residualIssues s) .radius
        (fun i hi => by rw [residualIssues_kind i hi]; simp)]
    have : (radiusIssues s).countP (fun i => decide (i.issue = .radius)) ≤ 1 := by
      unfold radiusIssues
      split <;> simp
    omega
  · intro i hi hk
    rw [dfm_check_main h1 h2] at hi
    rw [mem_radiusIssues (radius_mem_locate hi hk)]

/-- A horizontal plane face at height `zlev` with one incident edge `eid`. -/
def hPlaneFace (eid : ℕ) (zlev : ℚ) : Face where
  surface := .plane ⟨0, 0, 1⟩
  edges := [eid]
  boundBox := ⟨-20, 20, -20, 20, zlev, zlev⟩
  paramRange := (0, 1, 0, 1)
  normalAt := fun _ _ => ⟨0, 0, 1⟩
  valueAt := fun _ _ => ⟨0, 0, 0⟩
  parameter := fun _ => (0, 0)

/-- A cylinder face whose axis lies along x (off the layering axis). -/
def offAxisCylFace (eid : ℕ) : Face where
  surface := .cylinder ⟨1, 0, 0⟩ ⟨0, 0, 0⟩ 2
  edges := [eid]
  boundBox := ⟨-5, 5, -5, 5, 0, 10⟩
  paramRange := (0, 1, 0, 1)
  normalAt := fun _ _ => ⟨1, 0, 0⟩
  valueAt := fun _ _ => ⟨2, 0, 0⟩
  parameter := fun _ => (0, 0)

/-- Only one face, an off-axis cylinder: no horizontal planes, so the early
gate fires before the radius detector can run. -/
def offAxisOnlyShape : Shape where
  boundBox := ⟨-5, 5, -5, 5, 0, 10⟩
  faces := [offAxisCylFace 0]
  edges := [.other]
  dist := fun _ _ => (100, ⟨0, 0, 0⟩, ⟨0, 0, 0⟩)
  getAngle := fun _ _ => 0
  normalize := fun v => v

/-- A plate with top and bottom horizontal planes plus an off-axis cylinder:
passes the gates, so the radius detector fires. -/
def offAxisPlateShape : Shape where
  boundBox := ⟨-20, 20, -20, 20, 0, 10⟩
  faces := [hPlaneFace 0 10, hPlaneFace 1 0, offAxisCylFace 2]
  edges := [.other, .other, .other]
  dist := fun _ _ => (100, ⟨0, 0, 0⟩, ⟨0, 0, 0⟩)
  getAngle := fun _ _ => 0
  normalize := fun v => v

-- C2 counterexample: the claim as frozen quantifies over every input shape,
-- but on this shape an off-axis cylinder is present and yet the returned
-- issue list holds no radius issue (the early gate exits first).
unseal Rat.add Rat.sub Rat.mul Rat.inv Rat.ofScientific in
theorem dfm_check_radius_counterexample :
    (cylinders offAxisOnlyShape \ verticalCylinders offAxisOnlyShape).Nonempty ∧
      (dfm_check offAxisOnlyShape).issues = [⟨.nonUniform, none⟩] ∧
      ∀ i ∈ (dfm_check offAxisOnlyShape).issues, i.issue ≠ .radius := by
  refine ⟨by decide, by decide, by decide⟩

-- Evaluation witness for the amended C2 on a gate-passing shape.
unseal Rat.add Rat.sub Rat.mul Rat.inv Rat.ofScientific in
theorem dfm_check_radius_iff_witness :
    earlyGate offAxisPlateShape = false ∧ samplingFlag offAxisPlateShape = false ∧
      ∃ i ∈ (dfm_check offAxisPlateShape).issues, i.issue = .radius :=
  ⟨by decide, by decide,
    ((dfm_check_radius_iff offAxisPlateShape (by decide) (by decide)).1).mp
      (Or.inl (by decide))⟩

/-! ## Symmetry facts and the two-element enumeration -/

theorem ratAbs_sub_comm (a b : ℚ) : ratAbs (a - b) = ratAbs (b - a) := by
  unfold ratAbs
  split <;> split <;> linarith

theorem is_close_comm (a b : ℚ) : is_close a b = is_close b a := by
  unfold is_close isCloseTol
  rw [ratAbs_sub_comm]

theorem alignedCenters_comm (s : Shape) (i j : ℕ) :
    alignedCenters s i j = alignedCenters s j i := by
  unfold alignedCenters
  rw [is_close_comm ((s.face i).surface.centerOf.x) ((s.face j).surface.centerOf.x),
    is_close_comm ((s.face i).surface.centerOf.y) ((s.face j).surface.centerOf.y)]

theorem countersinkPair_comm (s : Shape) (x y : ℕ) :
    countersinkPair s x y = countersinkPair s y x := by
  unfold countersinkPair
  rw [alignedCenters_comm s x y]
  cases decide (x ∈ verticalCones s) <;> cases decide (y ∈ verticalCones s) <;>
    cases decide (x ∈ verticalCylinders s) <;> cases decide (y ∈ verticalCylinders s) <;>
    cases is_concave (s.face x) <;> cases is_concave (s.face y) <;> simp

theorem edgeToFaces_lt {s : Shape} {e x : ℕ} (h : x ∈ edgeToFaces s e) :
    x < s.faces.length :=
  (mem_edgeToFaces.mp h).1

theorem ascList_pairwise (n : ℕ) (t : Finset ℕ) : (ascList n t).Pairwise (· < ·) :=
  (List.pairwise_lt_range n).filter _

theorem sorted_pair_eq {l : List ℕ} {a b : ℕ} (hs : l.Pairwise (· < ·)) (hab : a < b)
    (hmem : ∀ x, x ∈ l ↔ x = a ∨ x = b) : l = [a, b] := by
  match l, hs with
  | [], _ =>
    have := (hmem a).mpr (Or.inl rfl)
    simp at this
  | [x], _ =>
    have ha := (hmem a).mpr (Or.inl rfl)
    have hb := (hmem b).mpr (Or.inr rfl)
    simp at ha hb
    omega
  | x :: y :: rest, hs =>
    obtain ⟨h1, hs2⟩ := List.pairwise_cons.mp hs
    obtain ⟨h2, _⟩ := List.pairwise_cons.mp hs2
    have hxy : x < y := h1 y (by simp)
    have hx := (hmem x).mp (by simp)
    have hy := (hmem y).mp (by simp)
    have hxa : x = a := by rcases hx with rfl | rfl <;> rcases hy with rfl | rfl <;> omega
    have hyb : y = b := by rcases hx with rfl | rfl <;> rcases hy with rfl | rfl <;> omega
    subst hxa
    subst hyb
    cases rest with
    | nil => rfl
    | cons z rest2 =>
      have hz := (hmem z).mp (by simp)
      have hxz : x < z := h1 z (by simp)
      have hyz : y < z := h2 z (by simp)
      rcases hz with rfl | rfl <;> omega

theorem ascList_eq_pair_iff {s : Shape} {e a b : ℕ} (hab : a < b) :
    ascList s.faces.length (edgeToFaces s e) = [a, b] ↔ edgeToFaces s e = {a, b} := by
  constructor
  · intro h
    apply Finset.ext
    intro x
    have hmem : (x < s.faces.length ∧ x ∈ edgeToFaces s e) ↔ x = a ∨ x = b := by
      rw [← mem_ascList, h]
      simp
    rw [Finset.mem_insert, Finset.mem_singleton]
    constructor
    · intro hx
      exact hmem.mp ⟨edgeToFaces_lt hx, hx⟩
    · intro hx
      exact (hmem.mpr hx).2
  · intro h
    apply sorted_pair_eq (ascList_pairwise s.faces.length (edgeToFaces s e)) hab
    intro x
    rw [mem_ascList, h, Finset.mem_insert, Finset.mem_singleton]
    constructor
    · tauto
    · intro hx
      refine ⟨?_, hx⟩
      have hx2 : x ∈ edgeToFaces s e := by
        rw [h, Finset.mem_insert, Finset.mem_singleton]
        exact hx
      exact edgeToFaces_lt hx2

/-! ## C5: countersink detection -/

/-- C5: at every edge whose incident-face set is exactly a pair consisting of
one concave vertical cone and one concave vertical cylinder with coincident
axis centers (the acceptance test `countersinkPair`), a counter-sink issue
carrying both face indices is emitted and the cone is claimed; the acceptance
test is symmetric in its two arguments, so which face the iteration meets
first can neither change whether the pair is reported nor omit it.  (The two
gate hypotheses state that the run reaches the detector pipeline.) -/
theorem dfm_check_countersink (s : Shape) (h1 : earlyGate s = false)
    (h2 : samplingFlag s = false) (e a b : ℕ) (he : e < s.edges.length)
    (hab : a < b) (hedge : edgeToFaces s e = {a, b})
    (hpair : countersinkPair s a b = true) :
    ((⟨.counterSink, some [a, b]⟩ : Issue) ∈ (dfm_check s).issues ∧
        (∀ k, (k = a ∨ k = b) → k ∈ verticalCones s → k ∈ countersinkCones s)) ∧
      (∀ x y, countersinkPair s x y = countersinkPair s y x) := by
  refine ⟨⟨?_, ?_⟩, countersinkPair_comm s⟩
  · rw [dfm_check_main h1 h2]
    refine mem_mainIssues.mpr (Or.inr (Or.inr (Or.inl ?_)))
    unfold countersinkIssues
    rw [List.mem_flatMap]
    refine ⟨e, List.mem_range.mpr he, ?_⟩
    unfold countersinkIssueAt
    rw [(ascList_eq_pair_iff hab).mpr hedge]
    simp [hpair]
  · intro k hk hcone
    unfold countersinkCones
    rw [Finset.mem_biUnion]
    refine ⟨e, Finset.mem_range.mpr he, ?_⟩
    rw [(ascList_eq_pair_iff hab).mpr hedge]
    simp only [hpair, if_true]
    rw [Finset.mem_inter, Finset.mem_insert, Finset.mem_singleton]
    exact ⟨hk, hcone⟩

/-- A countersink: top and bottom planes, a concave vertical cone (face 2)
and a concave vertical cylinder (face 3) sharing edge 0, coaxial at the
origin. -/
def ctsinkShape : Shape where
  boundBox := ⟨-20, 20, -20, 20, 0, 10⟩
  faces :=
    [hPlaneFace 1 10, hPlaneFace 2 0,
     { defaultFace with
        surface := .cone ⟨0, 0, 1⟩ ⟨0, 0, 0⟩
        edges := [0]
        boundBox := ⟨-3, 3, -3, 3, 6, 10⟩
        paramRange := (0, 1, 0, 1)
        normalAt := fun _ _ => ⟨-1, 0, 0⟩
        valueAt := fun _ _ => ⟨1, 0, 8⟩ },
     { defaultFace with
        surface := .cylinder ⟨0, 0, 1⟩ ⟨0, 0, 0⟩ 1
        edges := [0]
        boundBox := ⟨-1, 1, -1, 1, 0, 6⟩
        paramRange := (0, 1, 0, 1)
        normalAt := fun _ _ => ⟨-1, 0, 0⟩
        valueAt := fun _ _ => ⟨1, 0, 3⟩ }]
  edges := [.other, .other, .other]
  dist := fun _ _ => (100, ⟨0, 0, 0⟩, ⟨0, 0, 0⟩)
  getAngle := fun _ _ => 0
  normalize := fun v => v

-- Evaluation witness for C5 on the countersink shape.
unseal Rat.add Rat.sub Rat.mul Rat.inv Rat.ofScientific in
theorem dfm_check_countersink_witness :
    earlyGate ctsinkShape = false ∧ edgeToFaces ctsinkShape 0 = {2, 3} ∧
      countersinkPair ctsinkShape 2 3 = true ∧
      (⟨.counterSink, some [2, 3]⟩ : Issue) ∈ (dfm_check ctsinkShape).issues :=
  ⟨by decide, by decide, by decide,
    (dfm_check_countersink ctsinkShape (by decide) (by decide) 0 2 3 (by decide)
      (by decide) (by decide) (by decide)).1.1⟩

/-! ## C9: one counter-sink issue per qualifying shared edge -/

theorem countP_record_zero (l : List Issue) (r : Issue)
    (h : ∀ i ∈ l, i.issue ≠ r.issue) :
    l.countP (fun i => decide (i = r)) = 0 := by
  rw [List.countP_eq_zero]
  intro i hi
  simp only [decide_eq_true_eq]
  intro hir
  exact h i hi (by rw [hir])

theorem sum_map_ite_eq_countP {α : Type} (l : List α) (p : α → Prop) [DecidablePred p] :
    (l.map (fun e => if p e then 1 else 0)).sum = l.countP (fun e => decide (p e)) := by
  induction l with
  | nil => simp
  | cons x xs ih =>
    by_cases hx : p x <;> simp [hx, ih, List.countP_cons] <;> omega

theorem countersinkIssueAt_countP (s : Shape) {a b : ℕ} (hab : a < b)
    (hpair : countersinkPair s a b = true) (e : ℕ) :
    (countersinkIssueAt s e).countP
        (fun i => decide (i = ⟨.counterSink, some [a, b]⟩)) =
      if edgeToFaces s e = {a, b} then 1 else 0 := by
  by_cases hedge : edgeToFaces s e = {a, b}
  · rw [if_pos hedge]
    unfold countersinkIssueAt
    rw [(ascList_eq_pair_iff hab).mpr hedge]
    simp [hpair]
  · rw [if_neg hedge]
    unfold countersinkIssueAt
    rcases hl : ascList s.faces.length (edgeToFaces s e) with _ | ⟨x, _ | ⟨y, _ | ⟨z, r⟩⟩⟩
    · simp
    · simp
    · have hxy : x < y := by
        have hpw := ascList_pairwise s.faces.length (edgeToFaces s e)
        rw [hl] at hpw
        exact (List.pairwise_cons.mp hpw).1 y (by simp)
      have hne : ¬(x = a ∧ y = b) := by
        rintro ⟨rfl, rfl⟩
        exact hedge ((ascList_eq_pair_iff hxy).mp hl)
      have hred : (match [x, y] with
          | [i, j] =>
            if countersinkPair s i j = true then
              [({ issue := .counterSink, faces := some [i, j] } : Issue)]
            else []
          | _ => ([] : List Issue)) =
          if countersinkPair s x y = true then
            [({ issue := .counterSink, faces := some [x, y] } : Issue)]
          else [] := rfl
      rw [hred]
      by_cases hp : countersinkPair s x y = true
      · rw [if_pos hp, List.countP_cons, List.countP_nil]
        have hnc : ¬(decide ((⟨.counterSink, some [x, y]⟩ : Issue) =
            ⟨.counterSink, some [a, b]⟩) = true) := by
          simp only [decide_eq_true_eq]
          intro hrec
          have h2 : [x, y] = [a, b] := by
            have := congrArg Issue.faces hrec
            simpa using this
          have hx2 : x = a ∧ y = b := by simpa using h2
          exact hne hx2
        rw [if_neg hnc]
      · rw [if_neg hp]
        rfl
    · simp

theorem countersinkIssues_countP (s : Shape) {a b : ℕ} (hab : a < b)
    (hpair : countersinkPair s a b = true) :
    (countersinkIssues s).countP (fun i => decide (i = ⟨.counterSink, some [a, b]⟩)) =
      (List.range s.edges.length).countP (fun e => decide (edgeToFaces s e = {a, b})) := by
  unfold countersinkIssues
  rw [countP_flatMap_eq]
  rw [List.map_congr_left
    (fun e _ => countersinkIssueAt_countP s hab hpair e)]
  exact sum_map_ite_eq_countP (List.range s.edges.length) (fun e => edgeToFaces s e = {a, b})

/-- C9: the countersink detector deduplicates nothing: when the pair of faces
a, b satisfies the countersink acceptance test and at least two distinct
edges have incident-face set exactly {a, b}, the returned list carries one
counter-sink issue per such edge: the number of counter-sink issues with
faces [a, b] equals the number of such edges. -/
theorem dfm_check_countersink_count (s : Shape) (h1 : earlyGate s = false)
    (h2 : samplingFlag s = false) (a b : ℕ) (hab : a < b)
    (hpair : countersinkPair s a b = true)
    (hk : 2 ≤ (List.range s.edges.length).countP
        (fun e => decide (edgeToFaces s e = {a, b}))) :
    (dfm_check s).issues.countP (fun i => decide (i = ⟨.counterSink, some [a, b]⟩)) =
      (List.range s.edges.length).countP (fun e => decide (edgeToFaces s e = {a, b})) := by
  rw [dfm_check_main h1 h2]
  unfold mainIssues
  simp only [List.countP_append]
  rw [countP_record_zero (radiusIssues s) _
      (fun i hi => by rw [radiusIssues_kind i hi]; simp),
    countP_record_zero (cornerIssues s) _
      (fun i hi => by rcases cornerIssues_kind i hi with h | h <;> rw [h] <;> simp),
    countP_record_zero (counterboreIssues s) _
      (fun i hi => by rw [counterboreIssues_kind i hi]; simp),
    countP_record_zero (smallHoleIssues s (kerfWidth s)) _
      (fun i hi => by rcases smallHoleIssues_kind i hi with h | h | h <;> rw [h] <;> simp),
    countP_record_zero (smallCutIssues s (kerfWidth s)) _
      (fun i hi => by rw [smallCutIssues_kind i hi]; simp),
    countP_record_zero (draftChamferIssues s) _
      (fun i hi => by rcases draftChamferIssues_kind i hi with h | h <;> rw [h] <;> simp),
    countP_record_zero (residualIssues s) _
      (fun i hi => by rw [residualIssues_kind i hi]; simp),
    countersinkIssues_countP s hab hpair]
  omega

/-- A countersink whose cone (face 2) and cylinder (face 3) share two
distinct edges (0 and 1), each incident to exactly those two faces. -/
def ctsinkTwoEdgeShape : Shape where
  boundBox := ⟨-20, 20, -20, 20, 0, 10⟩
  faces :=
    [hPlaneFace 2 10, hPlaneFace 3 0,
     { defaultFace with
        surface := .cone ⟨0, 0, 1⟩ ⟨0, 0, 0⟩
        edges := [0, 1]
        boundBox := ⟨-8, 8, -8, 8, 6, 10⟩
        paramRange := (0, 1, 0, 1)
        normalAt := fun _ _ => ⟨-1, 0, 0⟩
        valueAt := fun _ _ => ⟨7, 0, 8⟩ },
     { defaultFace with
        surface := .cylinder ⟨0, 0, 1⟩ ⟨0, 0, 0⟩ 6
        edges := [0, 1]
        boundBox := ⟨-6, 6, -6, 6, 0, 6⟩
        paramRange := (0, 1, 0, 1)
        normalAt := fun _ _ => ⟨-1, 0, 0⟩
        valueAt := fun _ _ => ⟨6, 0, 3⟩ }]
  edges := [.other, .other, .other, .other]
  dist := fun _ _ => (100, ⟨0, 0, 0⟩, ⟨0, 0, 0⟩)
  getAngle := fun _ _ => 0
  normalize := fun v => v

-- Evaluation witness for C9: two shared edges, two counter-sink issues.
unseal Rat.add Rat.sub Rat.mul Rat.inv Rat.ofScientific in
theorem dfm_check_countersink_count_witness :
    countersinkPair ctsinkTwoEdgeShape 2 3 = true ∧
      (List.range ctsinkTwoEdgeShape.edges.length).countP
          (fun e => decide (edgeToFaces ctsinkTwoEdgeShape e = {2, 3})) = 2 ∧
      (dfm_check ctsinkTwoEdgeShape).issues.countP
          (fun i => decide (i = ⟨.counterSink, some [2, 3]⟩)) = 2 :=
  ⟨by decide, by decide,
    (dfm_check_countersink_count ctsinkTwoEdgeShape (by decide) (by decide) 2 3
        (by decide) (by decide) (by decide)).trans (by decide)⟩

/-! ## C3: counterbore detection -/

theorem horizontalPlanes_lt {s : Shape} {p : ℕ} (h : p ∈ horizontalPlanes s) :
    p < s.faces.length := by
  unfold horizontalPlanes planes at h
  exact Finset.mem_range.mp (Finset.mem_filter.mp (Finset.mem_filter.mp h).1).1

theorem verticalCylinders_lt {s : Shape} {c : ℕ} (h : c ∈ verticalCylinders s) :
    c < s.faces.length := by
  unfold verticalCylinders cylinders at h
  exact Finset.mem_range.mp (Finset.mem_filter.mp (Finset.mem_filter.mp h).1).1

theorem counterborePairOk_comm (s : Shape) (c1 c2 : ℕ) :
    counterborePairOk s c1 c2 = counterborePairOk s c2 c1 := by
  unfold counterborePairOk
  rw [is_close_comm ((s.face c1).surface.radiusOf) ((s.face c2).surface.radiusOf),
    is_close_comm ((s.face c1).boundBox.zMax) ((s.face c2).boundBox.zMax),
    alignedCenters_comm]

theorem counterboreIssuesAt_mem_of {s : Shape} {p x y : ℕ}
    (hpr : (x, y) ∈ pairsOf (concaveCylsOf s p))
    (hok : counterborePairOk s x y = true) :
    (⟨.counterBore, some [x, y, p]⟩ : Issue) ∈ counterboreIssuesAt s p := by
  unfold counterboreIssuesAt
  rw [List.mem_flatMap]
  exact ⟨(x, y), hpr, by simp [hok]⟩

/-- C3 (amended): in a run that reaches the detector pipeline, for every
horizontal plane and every pair of distinct concave vertical cylinders
adjacent to it whose radii differ beyond tolerance, whose bounding-box top
heights (z maxima) differ beyond tolerance, and whose axis centers coincide
within tolerance, a counter-bore issue carrying both cylinder indices and
the plane index is emitted, and the plane joins the claimed counterbore
plane set.  (As frozen the claim asks this whenever the vertical extents
differ; the code compares only the z maxima — see the counterexample, where
the extents differ but the z maxima coincide and nothing is emitted.) -/
theorem dfm_check_counterbore (s : Shape) (h1 : earlyGate s = false)
    (h2 : samplingFlag s = false) (p c1 c2 : ℕ)
    (hp : p ∈ horizontalPlanes s) (hne : c1 ≠ c2)
    (hc1 : c1 ∈ faceToFaces s p) (hc1v : c1 ∈ verticalCylinders s)
    (hc1c : is_concave (s.face c1) = true)
    (hc2 : c2 ∈ faceToFaces s p) (hc2v : c2 ∈ verticalCylinders s)
    (hc2c : is_concave (s.face c2) = true)
    (hrad : is_close (s.face c1).surface.radiusOf (s.face c2).surface.radiusOf = false)
    (hzmax : is_close (s.face c1).boundBox.zMax (s.face c2).boundBox.zMax = false)
    (halign : alignedCenters s c1 c2 = true) :
    (∃ i ∈ (dfm_check s).issues, i.issue = .counterBore ∧
        ∃ l, i.faces = some l ∧ c1 ∈ l ∧ c2 ∈ l ∧ p ∈ l) ∧
      p ∈ counterborePlanes s := by
  have hok : counterborePairOk s c1 c2 = true := by
    unfold counterborePairOk
    rw [hrad, hzmax, halign]
    rfl
  have hm1 : c1 ∈ concaveCylsOf s p :=
    mem_concaveCylsOf.mpr ⟨verticalCylinders_lt hc1v, hc1, hc1v, hc1c⟩
  have hm2 : c2 ∈ concaveCylsOf s p :=
    mem_concaveCylsOf.mpr ⟨verticalCylinders_lt hc2v, hc2, hc2v, hc2c⟩
  have hissue : ∃ x y, ({x, y} : Finset ℕ) = {c1, c2} ∧
      (⟨.counterBore, some [x, y, p]⟩ : Issue) ∈ counterboreIssuesAt s p := by
    rcases pairsOf_of_mem hne hm1 hm2 with hpr | hpr
    · exact ⟨c1, c2, rfl, counterboreIssuesAt_mem_of hpr hok⟩
    · refine ⟨c2, c1, Finset.pair_comm c2 c1, counterboreIssuesAt_mem_of hpr ?_⟩
      rw [counterborePairOk_comm]
      exact hok
  obtain ⟨x, y, hxy, hmem⟩ := hissue
  have hmemP : (⟨.counterBore, some [x, y, p]⟩ : Issue) ∈ counterboreIssues s := by
    unfold counterboreIssues
    rw [List.mem_flatMap]
    refine ⟨p, ?_, hmem⟩
    rw [mem_ascList]
    exact ⟨horizontalPlanes_lt hp, hp⟩
  constructor
  · refine ⟨⟨.counterBore, some [x, y, p]⟩, ?_, rfl, [x, y, p], rfl, ?_, ?_, by simp⟩
    · rw [dfm_check_main h1 h2]
      exact mem_mainIssues.mpr (Or.inr (Or.inr (Or.inr (Or.inl hmemP))))
    · have : c1 ∈ ({x, y} : Finset ℕ) := by
        rw [hxy, Finset.mem_insert, Finset.mem_singleton]
        exact Or.inl rfl
      rw [Finset.mem_insert, Finset.mem_singleton] at this
      rcases this with rfl | rfl <;> simp
    · have : c2 ∈ ({x, y} : Finset ℕ) := by
        rw [hxy, Finset.mem_insert, Finset.mem_singleton]
        exact Or.inr rfl
      rw [Finset.mem_insert, Finset.mem_singleton] at this
      rcases this with rfl | rfl <;> simp
  · unfold counterborePlanes
    rw [Finset.mem_filter]
    exact ⟨hp, List.ne_nil_of_mem hmem⟩

/-- A concave vertical cylinder face at the origin. -/
def vCylFace (eids : List ℕ) (r zlo zhi : ℚ) : Face where
  surface := .cylinder ⟨0, 0, 1⟩ ⟨0, 0, 0⟩ r
  edges := eids
  boundBox := ⟨-r, r, -r, r, zlo, zhi⟩
  paramRange := (0, 1, 0, 1)
  normalAt := fun _ _ => ⟨-1, 0, 0⟩
  valueAt := fun _ _ => ⟨r, 0, zlo⟩
  parameter := fun _ => (0, 0)

/-- A shoulder plane (face 2) joining two concave coaxial vertical cylinders
(faces 3 and 4) of different radii whose z spans are [0,10] and [4,10]:
different vertical extents but the same top height. -/
def cboreSameTopShape : Shape where
  boundBox := ⟨-20, 20, -20, 20, 0, 10⟩
  faces :=
    [hPlaneFace 2 10, hPlaneFace 3 0,
     { hPlaneFace 0 4 with edges := [0, 1] },
     vCylFace [0] 5 0 10,
     vCylFace [1] 2 4 10]
  edges := [.other, .other, .other, .other]
  dist := fun _ _ => (100, ⟨0, 0, 0⟩, ⟨0, 0, 0⟩)
  getAngle := fun _ _ => 0
  normalize := fun v => v

-- C3 counterexample: both cylinders are concave, vertical, adjacent to the
-- shoulder plane 2, radii differ, vertical extents differ ([0,10] against
-- [4,10]), axis centers coincide; yet no counter-bore issue is returned and
-- the plane is not claimed, because the code only compares the z maxima,
-- which coincide here.
unseal Rat.add Rat.sub Rat.mul Rat.inv Rat.ofScientific in
theorem dfm_check_counterbore_counterexample :
    ((2 : ℕ) ∈ horizontalPlanes cboreSameTopShape ∧
        3 ∈ faceToFaces cboreSameTopShape 2 ∧
        3 ∈ verticalCylinders cboreSameTopShape ∧
        is_concave (cboreSameTopShape.face 3) = true ∧
        4 ∈ faceToFaces cboreSameTopShape 2 ∧
        4 ∈ verticalCylinders cboreSameTopShape ∧
        is_concave (cboreSameTopShape.face 4) = true ∧
        is_close (cboreSameTopShape.face 3).surface.radiusOf
          (cboreSameTopShape.face 4).surface.radiusOf = false ∧
        ((cboreSameTopShape.face 3).boundBox.zMax -
            (cboreSameTopShape.face 3).boundBox.zMin ≠
          (cboreSameTopShape.face 4).boundBox.zMax -
            (cboreSameTopShape.face 4).boundBox.zMin) ∧
        (cboreSameTopShape.face 3).boundBox.zMin ≠
          (cboreSameTopShape.face 4).boundBox.zMin ∧
        alignedCenters cboreSameTopShape 3 4 = true) ∧
      (∀ i ∈ (dfm_check cboreSameTopShape).issues, i.issue ≠ .counterBore) ∧
      (2 : ℕ) ∉ counterborePlanes cboreSameTopShape := by
  refine ⟨by decide, by decide, by decide⟩

/-- A proper counterbore: shoulder plane (face 2) at z = 4 joining a wide
upper bore (face 3, z span [4,10]) and a narrow lower bore (face 4, z span
[0,4]). -/
def cboreStepShape : Shape where
  boundBox := ⟨-20, 20, -20, 20, 0, 10⟩
  faces :=
    [hPlaneFace 2 10, hPlaneFace 3 0,
     { hPlaneFace 0 4 with edges := [0, 1] },
     vCylFace [0] 5 4 10,
     vCylFace [1] 2 0 4]
  edges := [.other, .other, .other, .other]
  dist := fun _ _ => (100, ⟨0, 0, 0⟩, ⟨0, 0, 0⟩)
  getAngle := fun _ _ => 0
  normalize := fun v => v

-- Evaluation witness for the amended C3 on the stepped-hole shape.
unseal Rat.add Rat.sub Rat.mul Rat.inv Rat.ofScientific in
theorem dfm_check_counterbore_witness :
    earlyGate cboreStepShape = false ∧
      (∃ i ∈ (dfm_check cboreStepShape).issues, i.issue = .counterBore ∧
        ∃ l, i.faces = some l ∧ 3 ∈ l ∧ 4 ∈ l ∧ 2 ∈ l) ∧
      (2 : ℕ) ∈ counterborePlanes cboreStepShape := by
  have h := dfm_check_counterbore cboreStepShape (by decide) (by decide) 2 3 4
    (by decide) (by decide) (by decide) (by decide) (by decide) (by decide)
    (by decide) (by decide) (by decide) (by decide) (by decide)
  exact ⟨by decide, h.1, h.2⟩

/-! ## C4: the small-cut normal-direction dichotomy -/

theorem nonHorizontal_lt {s : Shape} {f : ℕ} (h : f ∈ nonHorizontal s) :
    f < s.faces.length := by
  unfold nonHorizontal at h
  exact Finset.mem_range.mp (Finset.mem_sdiff.mp h).1

theorem smallCutPairIssue_guards {s : Shape} {kerf : ℚ} {tcs : List (Finset ℕ)}
    {i j : ℕ} (h : (⟨.smallCut, some [i, j]⟩ : Issue) ∈ smallCutPairIssue s kerf tcs i j) :
    ¬((normalAtPoint s i (s.dist i j).2.1).dot (sepVec s i j) < 0) ∧
      ¬((normalAtPoint s j (s.dist i j).2.2).dot (-(sepVec s i j)) < 0) := by
  unfold smallCutPairIssue at h
  repeat' split at h
  all_goals simp_all

/-- C4 (amended): for non-adjacent non-horizontal faces i < j whose kernel
minimum distance is at most the kerf width, in a run that reaches the
detector pipeline: if the separation vector between the closest points
opposes both faces' outward normals there, a small-cut issue for the pair is
never returned; if it has positive dot product with both outward normals,
the pair is not jointly inside any tight-corner group, and the kerf-enlarged
bounding boxes meet (automatic for geometrically consistent kernel data),
the small-cut issue with both face indices is returned.  (As frozen the
claim omits the tight-corner-group suppression; see the counterexample.) -/
theorem dfm_check_smallcut (s : Shape) (h1 : earlyGate s = false)
    (h2 : samplingFlag s = false) (i j : ℕ) (hij : i < j)
    (hi : i ∈ nonHorizontal s) (hj : j ∈ nonHorizontal s)
    (hadj : j ∉ faceToFaces s i)
    (hdist : (s.dist i j).1 ≤ kerfWidth s) :
    ((normalAtPoint s i (s.dist i j).2.1).dot (sepVec s i j) < 0 ∧
        (normalAtPoint s j (s.dist i j).2.2).dot (-(sepVec s i j)) < 0 →
      (⟨.smallCut, some [i, j]⟩ : Issue) ∉ (dfm_check s).issues) ∧
      (0 < (normalAtPoint s i (s.dist i j).2.1).dot (sepVec s i j) →
        0 < (normalAtPoint s j (s.dist i j).2.2).dot (-(sepVec s i j)) →
        (∀ t ∈ tightCornerSets s (kerfWidth s), ¬(i ∈ t ∧ j ∈ t)) →
        BBox.intersects ((s.face i).boundBox.enlarge (1 / 2 * kerfWidth s))
            ((s.face j).boundBox.enlarge (1 / 2 * kerfWidth s)) = true →
        (⟨.smallCut, some [i, j]⟩ : Issue) ∈ (dfm_check s).issues) := by
  constructor
  · rintro ⟨hop1, hop2⟩ hmem
    rw [dfm_check_main h1 h2] at hmem
    have hloc := smallCut_mem_locate hmem rfl
    obtain ⟨a, b, hab, _, _, _, hrec, hpmem⟩ := mem_smallCutIssues hloc
    have hfaces : ([i, j] : List ℕ) = [a, b] := by
      have := congrArg Issue.faces hrec
      simpa using this
    have hia : i = a ∧ j = b := by simpa using hfaces
    obtain ⟨rfl, rfl⟩ := hia
    exact (smallCutPairIssue_guards hpmem).1 hop1
  · intro hd1 hd2 hsupp hbox
    have hany : (tightCornerSets s (kerfWidth s)).any
        (fun t => decide (i ∈ t) && decide (j ∈ t)) = false := by
      rw [List.any_eq_false]
      intro t ht hpt
      rw [Bool.and_eq_true, decide_eq_true_eq, decide_eq_true_eq] at hpt
      exact hsupp t ht hpt
    have hpair : smallCutPairIssue s (kerfWidth s) (tightCornerSets s (kerfWidth s)) i j =
        [⟨.smallCut, some [i, j]⟩] := by
      unfold smallCutPairIssue
      rw [if_neg (by simp [hany]), if_neg (by simpa using hbox),
        if_neg (not_lt.mpr hdist), if_neg (lt_asymm hd1), if_neg (lt_asymm hd2)]
    rw [dfm_check_main h1 h2]
    refine mem_mainIssues.mpr (Or.inr (Or.inr (Or.inr (Or.inr (Or.inr (Or.inl ?_))))))
    unfold smallCutIssues
    rw [List.mem_flatMap]
    refine ⟨i, by rw [mem_ascList]; exact ⟨nonHorizontal_lt hi, hi⟩, ?_⟩
    rw [List.mem_flatMap]
    refine ⟨j, ?_, ?_⟩
    · rw [List.mem_filter]
      refine ⟨by rw [mem_ascList]; exact ⟨nonHorizontal_lt hj, hj⟩, ?_⟩
      simp [hij, hadj]
    · rw [hpair]
      simp

/-- A vertical wall plane face with a constant outward normal. -/
def wallFace (eids : List ℕ) (ax nrm : Vec3) (bb : BBox) : Face where
  surface := .plane ax
  edges := eids
  boundBox := bb
  paramRange := (0, 1, 0, 1)
  normalAt := fun _ _ => nrm
  valueAt := fun _ _ => ⟨0, 0, 0⟩
  parameter := fun _ => (0, 0)

/-- Two close non-adjacent vertical walls (faces 2 and 3) both adjacent to a
small concave vertical cylinder fillet (face 4), which puts the pair into a
tight-corner group. -/
def scSuppressShape : Shape where
  boundBox := ⟨-20, 20, -20, 20, 0, 10⟩
  faces :=
    [hPlaneFace 2 10, hPlaneFace 3 0,
     wallFace [0] ⟨1, 0, 0⟩ ⟨1, 0, 0⟩ ⟨0, 0, -5, 5, 0, 10⟩,
     wallFace [1] ⟨0, 1, 0⟩ ⟨-1, 0, 0⟩ ⟨1, 1, -5, 5, 0, 10⟩,
     vCylFace [0, 1] 1 0 10]
  edges := [.other, .other, .other, .other]
  dist := fun _ _ => (1, ⟨1, 0, 0⟩, ⟨3 / 2, 1 / 2, 0⟩)
  getAngle := fun _ _ => 1
  normalize := fun v => v

-- C4 counterexample: the pair (2, 3) is non-adjacent, non-horizontal, its
-- kernel distance is below the kerf width and the separation vector has
-- positive dot product with both outward normals, yet no small-cut issue is
-- returned: the small fillet cylinder 4 put {2, 3} into a tight-corner
-- group, which the frozen claim does not account for.
unseal Rat.add Rat.sub Rat.mul Rat.inv Rat.ofScientific in
theorem dfm_check_smallcut_counterexample :
    ((2 : ℕ) ∈ nonHorizontal scSuppressShape ∧
        (3 : ℕ) ∈ nonHorizontal scSuppressShape ∧
        (3 : ℕ) ∉ faceToFaces scSuppressShape 2 ∧
        (scSuppressShape.dist 2 3).1 ≤ kerfWidth scSuppressShape ∧
        0 < (normalAtPoint scSuppressShape 2 (scSuppressShape.dist 2 3).2.1).dot
            (sepVec scSuppressShape 2 3) ∧
        0 < (normalAtPoint scSuppressShape 3 (scSuppressShape.dist 2 3).2.2).dot
            (-(sepVec scSuppressShape 2 3))) ∧
      ∀ i ∈ (dfm_check scSuppressShape).issues, i.issue ≠ .smallCut := by
  exact ⟨by decide, by decide⟩

/-- Two close non-adjacent vertical walls (faces 2 and 3) with no fillet:
the small-cut issue fires. -/
def scEmitShape : Shape where
  boundBox := ⟨-20, 20, -20, 20, 0, 10⟩
  faces :=
    [hPlaneFace 2 10, hPlaneFace 3 0,
     wallFace [0] ⟨1, 0, 0⟩ ⟨1, 0, 0⟩ ⟨0, 0, -5, 5, 0, 10⟩,
     wallFace [1] ⟨0, 1, 0⟩ ⟨-1, 0, 0⟩ ⟨1, 1, -5, 5, 0, 10⟩]
  edges := [.other, .other, .other, .other]
  dist := fun _ _ => (1, ⟨1, 0, 0⟩, ⟨3 / 2, 1 / 2, 0⟩)
  getAngle := fun _ _ => 1
  normalize := fun v => v

-- Evaluation witness for the amended C4 on the two-wall shape.
unseal Rat.add Rat.sub Rat.mul Rat.inv Rat.ofScientific in
theorem dfm_check_smallcut_witness :
    earlyGate scEmitShape = false ∧
      (⟨.smallCut, some [2, 3]⟩ : Issue) ∈ (dfm_check scEmitShape).issues :=
  ⟨by decide,
    (dfm_check_smallcut scEmitShape (by decide) (by decide) 2 3 (by decide) (by decide)
        (by decide) (by decide) (by decide)).2 (by decide) (by decide) (by decide)
      (by decide)⟩
